import Mathlib

/-!
Verification of the tag-reconciliation engine of exif-extract.

The definitions below are a shallow embedding of `src/modules/logic.mjs`
(`gatherTags`, `processDirectories`) and `src/modules/helpers.mjs`
(`isObject`, `logMissingTag`, the `tagOptions` clause of
`validateOptions`).  JavaScript values are modelled by the mutual
inductives `JSValue` / `JSList` / `JSFields`; JavaScript runtime errors
(TypeError on property access of null/undefined) are modelled with
`Except Unit`.  File paths are modelled as lists of path segments, and
the external metadata read (`exifExtract.read`) is modelled by passing
its outcome (`Except Unit RawMetadata`) as an argument.
-/

namespace ExifExtract

mutual

/-- Model of a JavaScript value as it can occur in raw metadata, tag
specifications and output records: string, number, boolean, null,
undefined, array, or plain object (fields in insertion order). -/
inductive JSValue where
  | str (s : String)
  | num (n : Int)
  | bool (b : Bool)
  | null
  | undefined
  | arr (elems : JSList)
  | obj (fields : JSFields)

/-- A list of JavaScript values (array elements). -/
inductive JSList where
  | nil
  | cons (head : JSValue) (tail : JSList)

/-- The fields of a JavaScript object, in insertion order. -/
inductive JSFields where
  | fnil
  | fcons (key : String) (value : JSValue) (tail : JSFields)

end

mutual

/-- JS string coercion, `String(v)`, as applied by `/^\s*$/.test(v)` in
`gatherTags` to a non-string value. -/
def jsToString : JSValue → String
  | .str s => s
  | .num n => toString n
  | .bool b => if b then "true" else "false"
  | .null => "null"
  | .undefined => "undefined"
  | .obj _ => "[object Object]"
  | .arr xs => jsListToString xs

/-- String coercion of an array: elements joined by a comma, with
`null` and `undefined` elements coercing to the empty string
(Array.prototype.join semantics).  In particular `String([]) = ""`. -/
def jsListToString : JSList → String
  | .nil => ""
  | .cons x t =>
    (match x with
     | .null => ""
     | .undefined => ""
     | v => jsToString v) ++
    (match t with
     | .nil => ""
     | .cons y u => "," ++ jsListToString (.cons y u))

end

/-- The characters matched by the `\s` class of the regular expression
`/^\s*$/` in `gatherTags`: per ECMAScript, the WhiteSpace characters
(tab, vertical tab, form feed, space, no-break space, zero-width
no-break space, and the Unicode space separators U+1680, U+2000-U+200A,
U+202F, U+205F, U+3000) together with the LineTerminator characters
(line feed, carriage return, line separator, paragraph separator). -/
def isJSSpace (c : Char) : Bool :=
  c == ' ' || c == '\t' || c == '\n' || c == '\r' || c == '\x0b' || c == '\x0c' ||
  c == '\u00A0' || c == '\u1680' ||
  (0x2000 ≤ c.val && c.val ≤ 0x200A) ||
  c == '\u2028' || c == '\u2029' || c == '\u202F' || c == '\u205F' ||
  c == '\u3000' || c == '\uFEFF'

/-- `/^\s*$/.test(s)`: the string consists entirely of whitespace;
true for the empty string. -/
def whitespaceOnly (s : String) : Bool :=
  s.data.all isJSSpace

/-- The emptiness test of `gatherTags` (src/modules/logic.mjs lines
29-33): `metadata[tag] === undefined || metadata[tag] === null ||
/^\s*$/.test(metadata[tag])`.  The regular-expression test coerces a
non-string value to a string first. -/
def isEmptyValue : JSValue → Bool
  | .undefined => true
  | .null => true
  | v => whitespaceOnly (jsToString v)

/-- JS truthiness, as used by `if (metadata[tag])` and
`if (entry[tag].write)` in `gatherTags`. -/
def truthy : JSValue → Bool
  | .str s => !s.isEmpty
  | .num n => !(n == 0)
  | .bool b => b
  | .null => false
  | .undefined => false
  | .arr _ => true
  | .obj _ => true

/-- `isObject` from src/modules/helpers.mjs: `typeof value === 'object'
&& value !== null && !Array.isArray(value)`. -/
def isObject : JSValue → Bool
  | .obj _ => true
  | _ => false

/-- `Array.isArray(value)`. -/
def isArrayJS : JSValue → Bool
  | .arr _ => true
  | _ => false

/-- First field of an object with the given key, if present. -/
def fieldsGet : JSFields → String → Option JSValue
  | .fnil, _ => none
  | .fcons k v t, key => if k = key then some v else fieldsGet t key

/-- `o.hasOwnProperty(key)` for a plain object. -/
def fieldsHas (fs : JSFields) (key : String) : Bool :=
  (fieldsGet fs key).isSome

/-- JS property access `v[key]` on a value known not to throw: an
absent key (and any access on a non-object primitive or array by a
non-index key) yields `undefined`. -/
def jsGet (v : JSValue) (key : String) : JSValue :=
  match v with
  | .obj fs => (fieldsGet fs key).getD .undefined
  | _ => .undefined

/-- Association-list lookup (first match), for JS object state held
outside `JSValue` (records, the missing-tag ledger). -/
def assocGet {α : Type} : List (String × α) → String → Option α
  | [], _ => none
  | (k0, v0) :: t, k => if k0 = k then some v0 else assocGet t k

/-- JS object assignment `o[k] = v`: update the existing field in place,
or append a new field at the end (insertion order preserved). -/
def assocSet {α : Type} : List (String × α) → String → α → List (String × α)
  | [], k, v => [(k, v)]
  | (k0, v0) :: t, k, v => if k0 = k then (k0, v) :: t else (k0, v0) :: assocSet t k v

/-- One file's raw metadata, as returned by the metadata source: a tag
name to value mapping. -/
abbrev RawMetadata := List (String × JSValue)

/-- The reconciled output record built by `gatherTags`
(`filteredMetadata`). -/
abbrev Record := List (String × JSValue)

/-- The `(tag, value)` pairs passed to `logMissingTag` during one
`gatherTags` run, in call order. -/
abbrev WriteList := List (String × JSValue)

/-- `metadata[tag]`: absent keys read as `undefined`. -/
def rawGet (metadata : RawMetadata) (tag : String) : JSValue :=
  (assocGet metadata tag).getD .undefined

/-- The tag name examined by one loop iteration of `gatherTags` (line
26): `typeof entry === 'string' ? entry : Object.keys(entry)[0]`.
`Object.keys` throws a TypeError on null/undefined; for a value with no
own enumerable keys it yields `[]`, whose first element is `undefined`,
which subsequent property accesses coerce to the key `"undefined"`; for
a non-empty array the first key is the index string `"0"`.  (For a
multi-key object JS would list integer-like keys before the first
inserted one; the model keeps insertion order, which agrees with JS on
the single-key mappings the tag-specification contract admits.) -/
def entryName : JSValue → Except Unit String
  | .str s => .ok s
  | .null => .error ()
  | .undefined => .error ()
  | .obj .fnil => .ok "undefined"
  | .obj (.fcons k _ _) => .ok k
  | .arr .nil => .ok "undefined"
  | .arr (.cons _ _) => .ok "0"
  | .num _ => .ok "undefined"
  | .bool _ => .ok "undefined"

/-- Optional chaining `x?.val`: null/undefined short-circuit to
`undefined`; a primitive or array has no `val` property. -/
def optionalVal : JSValue → JSValue
  | .null => .undefined
  | .undefined => .undefined
  | .obj fs => (fieldsGet fs "val").getD .undefined
  | _ => .undefined

/-- Indexed access `entry[tag]` for a non-object entry (reachable only
when computing the unused fallback of a non-object entry): on a
non-empty array the key `"0"` reads the first element; other primitive
accesses read `undefined`. -/
def nonObjectIndex : JSValue → String → JSValue
  | .arr (.cons x _), "0" => x
  | _, _ => .undefined

/-- Line 27 of `gatherTags`:
`isObject(entry) ? entry[tag]?.val : entry[tag]`. -/
def entryFallbackVal (entry : JSValue) (tag : String) : JSValue :=
  if isObject entry then optionalVal (jsGet entry tag) else nonObjectIndex entry tag

/-- `x.hasOwnProperty('val')`: throws a TypeError when `x` is null or
undefined; false on primitives and arrays; field lookup on objects. -/
def hasOwnVal : JSValue → Except Unit Bool
  | .null => .error ()
  | .undefined => .error ()
  | .obj fs => .ok (fieldsHas fs "val")
  | _ => .ok false

/-- One iteration of the reconciliation loop of `gatherTags`
(src/modules/logic.mjs lines 25-58), threading the record under
construction and the list of `logMissingTag` calls made so far. -/
def step (metadata : RawMetadata) (st : Record × WriteList) (entry : JSValue) :
    Except Unit (Record × WriteList) :=
  match entryName entry with
  | .error e => .error e
  | .ok tag =>
    let val := entryFallbackVal entry tag
    if isEmptyValue (rawGet metadata tag) then
      if isObject entry then
        match hasOwnVal (jsGet entry tag) with
        | .error e => .error e
        | .ok hv =>
          if !hv then
            .ok (assocSet st.1 tag (jsGet entry tag), st.2)
          else
            if truthy (jsGet (jsGet entry tag) "write") then
              .ok (assocSet st.1 tag val, st.2 ++ [(tag, val)])
            else
              .ok (assocSet st.1 tag val, st.2)
      else
        .ok st
    else
      if truthy (rawGet metadata tag) then
        .ok (assocSet st.1 tag (rawGet metadata tag), st.2)
      else
        .ok st

/-- The reconciliation core of `gatherTags` (lines 24-62): with a
non-empty spec, fold the loop body over the entries starting from an
empty record; with an empty spec, return the raw metadata wholesale
(`filteredMetadata = metadata`).  Also returns the `(tag, value)`
pairs passed to `logMissingTag`, in call order. -/
def reconcile (metadata : RawMetadata) (tagOptions : List JSValue) :
    Except Unit (Record × WriteList) :=
  if tagOptions.length ≠ 0 then
    tagOptions.foldlM (step metadata) ([], [])
  else
    .ok (metadata, [])

/-- A file path, as its list of segments (an absolute path without the
leading separator). -/
abbrev Path := List String

/-- `path.dirname`: drop the last segment. -/
def pathDirname (p : Path) : Path := p.dropLast

/-- `path.basename`: the last segment. -/
def pathBasename (p : Path) : String := p.getLast?.getD ""

/-- Length of the common leading segment run of two paths. -/
def commonLen : List String → List String → Nat
  | a :: as, b :: bs => if a = b then commonLen as bs + 1 else 0
  | _, _ => 0

/-- `path.relative(fromP, toP)` on resolved absolute paths: step up out
of the non-shared part of `fromP`, then down into the non-shared part
of `toP`; equal paths yield the empty string. -/
def pathRelative (fromP toP : Path) : String :=
  let c := commonLen fromP toP
  String.intercalate "/" (List.replicate (fromP.length - c) ".." ++ toP.drop c)

/-- `gatherTags` from src/modules/logic.mjs (lines 17-74): read the
file's metadata (outcome supplied as `readResult`; a read failure is
caught and rethrown), reconcile it against `tagOptions`, then set the
`SourceFile` and `Directory` keys to the paths relative to `rootDir`.
A TypeError thrown inside the loop is likewise caught and rethrown. -/
def gatherTags (readResult : Except Unit RawMetadata) (absFilePath : Path)
    (rootDir : Path) (tagOptions : List JSValue) : Except Unit Record :=
  match readResult with
  | .error e => .error e
  | .ok metadata =>
    match reconcile metadata tagOptions with
    | .error e => .error e
    | .ok st =>
      .ok (assocSet
            (assocSet st.1 "SourceFile" (.str (pathRelative rootDir absFilePath)))
            "Directory" (.str (pathRelative rootDir (pathDirname absFilePath))))

/-- The missing-tag accumulator `missingTags` of src/modules/helpers.mjs:
file basename, then tag name, to the fallback value to be written. -/
abbrev Ledger := List (String × List (String × JSValue))

/-- `logMissingTag` from src/modules/helpers.mjs (lines 420-429): key
the entry by the file's basename, creating the per-file map when first
needed, and assign the tag's fallback value into it. -/
def logMissingTag (ledger : Ledger) (absFilePath : Path) (tag : String)
    (val : JSValue) : Ledger :=
  let fileName := pathBasename absFilePath
  let entry := (assocGet ledger fileName).getD []
  assocSet ledger fileName (assocSet entry tag val)

/-- Replay onto a ledger the `logMissingTag` calls that one
`gatherTags` run makes for the given file. -/
def applyWriteList (ledger : Ledger) (absFilePath : Path) (wl : WriteList) : Ledger :=
  wl.foldl (fun L p => logMissingTag L absFilePath p.1 p.2) ledger

/-- Outcome of one settled promise, as produced by
`Promise.allSettled`. -/
inductive Settled (α : Type) where
  | fulfilled (value : α)
  | rejected

/-- The `.value` access on a settled result: a rejected result has no
`value` property, so the access reads `undefined` (modelled `none`). -/
def settledValue {α : Type} : Settled α → Option α
  | .fulfilled v => some v
  | .rejected => none

/-- JS truthiness of a settled result object: every object is truthy,
so `filter(Boolean)` keeps every settled result. -/
def settledTruthy {α : Type} : Settled α → Bool := fun _ => true

/-- `processDirectories` from src/modules/logic.mjs (lines 88-110),
after file discovery: each discovered file is given with the outcome of
its metadata read.  Throws when no files were found; otherwise maps
`gatherTags` over the files, settles all outcomes, filters with
`Boolean`, and projects each settled result to its `.value`. -/
def processDirectories (files : List (Path × Except Unit RawMetadata))
    (rootDir : Path) (tagOptions : List JSValue) :
    Except Unit (List (Option Record)) :=
  if files.length = 0 then
    .error ()
  else
    let metadataList := files.map (fun f =>
      match gatherTags f.2 f.1 rootDir tagOptions with
      | .ok record => Settled.fulfilled record
      | .error _ => Settled.rejected)
    .ok ((metadataList.filter settledTruthy).map settledValue)

/-- The `tagOptions` clause of `validateOptions` from
src/modules/helpers.mjs (lines 218-223): throw iff `tagOptions` is
truthy and not an array.  (The other clauses of `validateOptions`
validate filesystem paths and are external to the reconciliation
engine.) -/
def validateTagOptions (tagOptions : JSValue) : Except Unit Unit :=
  if truthy tagOptions && !isArrayJS tagOptions then .error () else .ok ()

/-- Convert a Lean list of values to a JS array payload. -/
def JSList.ofList : List JSValue → JSList
  | [] => .nil
  | x :: xs => .cons x (JSList.ofList xs)

/-- Convert a Lean list of fields to a JS object payload. -/
def JSFields.ofList : List (String × JSValue) → JSFields
  | [] => .fnil
  | (k, v) :: t => .fcons k v (JSFields.ofList t)

/-- The tag names a spec's entries resolve to (the name each loop
iteration of `gatherTags` examines). -/
def specNames (tagOptions : List JSValue) : List String :=
  tagOptions.filterMap (fun e =>
    match entryName e with
    | .ok s => some s
    | .error _ => none)

/-- A spec entry of one of the shapes the tag-specification contract
admits: a bare tag name, or a single-key mapping. -/
def wellFormedEntry (e : JSValue) : Prop :=
  (∃ s, e = .str s) ∨ (∃ k v, e = .obj (.fcons k v .fnil))

/-! Helper lemmas about association-list update and lookup. -/

theorem assocGet_assocSet_self {α : Type} (l : List (String × α)) (k : String) (v : α) :
    assocGet (assocSet l k v) k = some v := by
  induction l with
  | nil => simp [assocSet, assocGet]
  | cons hd t ih =>
    obtain ⟨k0, v0⟩ := hd
    by_cases hk : k0 = k
    · simp [assocSet, assocGet, hk]
    · simp [assocSet, assocGet, hk, ih]

theorem assocGet_assocSet_ne {α : Type} (l : List (String × α)) (k k2 : String) (v : α)
    (h : k2 ≠ k) : assocGet (assocSet l k v) k2 = assocGet l k2 := by
  induction l with
  | nil => simp [assocSet, assocGet, Ne.symm h]
  | cons hd t ih =>
    obtain ⟨k0, v0⟩ := hd
    by_cases hk : k0 = k
    · subst hk
      simp [assocSet, assocGet, Ne.symm h]
    · by_cases hk2 : k0 = k2
      · subst hk2
        simp [assocSet, assocGet, hk]
      · simp [assocSet, assocGet, hk, hk2, ih]

theorem isSome_assocGet_assocSet {α : Type} (l : List (String × α)) (k k2 : String) (v : α)
    (h : (assocGet (assocSet l k v) k2).isSome = true) :
    k2 = k ∨ (assocGet l k2).isSome = true := by
  by_cases hk : k2 = k
  · exact Or.inl hk
  · rw [assocGet_assocSet_ne l k k2 v hk] at h
    exact Or.inr h

/-- Shape analysis of one loop iteration: it throws, leaves the state
unchanged, or assigns one value under the entry's tag name and appends
a fixed batch of write-list pairs; the effect does not depend on the
incoming state. -/
theorem step_shape (metadata : RawMetadata) (e : JSValue) (r : Record) (w : WriteList) :
    (step metadata (r, w) e = .error () ∧ step metadata ([], []) e = .error ()) ∨
    (step metadata (r, w) e = .ok (r, w) ∧ step metadata ([], []) e = .ok ([], [])) ∨
    (∃ t v wl, entryName e = .ok t ∧
      step metadata (r, w) e = .ok (assocSet r t v, w ++ wl) ∧
      step metadata ([], []) e = .ok ([(t, v)], wl)) := by
  cases he : entryName e with
  | error u =>
    cases u
    exact Or.inl ⟨by simp [step, he], by simp [step, he]⟩
  | ok tag =>
    by_cases hem : isEmptyValue (rawGet metadata tag)
    · by_cases ho : isObject e
      · cases hv : hasOwnVal (jsGet e tag) with
        | error u =>
          cases u
          exact Or.inl ⟨by simp [step, he, hem, ho, hv], by simp [step, he, hem, ho, hv]⟩
        | ok b =>
          cases b with
          | false =>
            refine Or.inr (Or.inr ⟨tag, jsGet e tag, [], rfl, ?_, ?_⟩) <;>
              simp [step, he, hem, ho, hv, assocSet]
          | true =>
            by_cases hw : truthy (jsGet (jsGet e tag) "write")
            · refine Or.inr (Or.inr ⟨tag, entryFallbackVal e tag, [(tag, entryFallbackVal e tag)],
                rfl, ?_, ?_⟩) <;> simp [step, he, hem, ho, hv, hw, assocSet]
            · refine Or.inr (Or.inr ⟨tag, entryFallbackVal e tag, [], rfl, ?_, ?_⟩) <;>
                simp [step, he, hem, ho, hv, hw, assocSet]
      · exact Or.inr (Or.inl ⟨by simp [step, he, hem, ho], by simp [step, he, hem, ho]⟩)
    · by_cases ht : truthy (rawGet metadata tag)
      · refine Or.inr (Or.inr ⟨tag, rawGet metadata tag, [], rfl, ?_, ?_⟩) <;>
          simp [step, he, hem, ht, assocSet]
      · exact Or.inr (Or.inl ⟨by simp [step, he, hem, ht], by simp [step, he, hem, ht]⟩)

theorem reconcile_ne_nil (metadata : RawMetadata) (tagOptions : List JSValue)
    (h : tagOptions ≠ []) :
    reconcile metadata tagOptions = tagOptions.foldlM (step metadata) ([], []) := by
  unfold reconcile
  rw [if_pos]
  intro hlen
  exact h (List.eq_nil_of_length_eq_zero hlen)

theorem reconcile_one (metadata : RawMetadata) (e : JSValue) :
    reconcile metadata [e] = step metadata ([], []) e := by
  rw [reconcile_ne_nil metadata [e] (by simp)]
  cases h : step metadata ([], []) e <;> simp [List.foldlM, h]

/-- A string that is not whitespace-only is non-empty, hence truthy. -/
theorem truthy_str_of_not_ws (s : String) (h : whitespaceOnly s = false) :
    truthy (.str s) = true := by
  by_cases he : s.isEmpty
  · exfalso
    rw [String.isEmpty_iff] at he
    subst he
    simp [whitespaceOnly] at h
  · simp [truthy, he]

/-- A non-empty, non-whitespace string fails the emptiness test. -/
theorem isEmptyValue_str (s : String) (h : whitespaceOnly s = false) :
    isEmptyValue (.str s) = false := by
  simp [isEmptyValue, jsToString, h]

/-- C1: for every raw metadata map where `raw[tag]` is a non-empty,
non-whitespace string, and for every request for `tag` (a bare name or
a single-key mapping, covering both the fallback-object and the
`val`/`write`-policy shapes), the reconciled record maps `tag` to
`raw[tag]` verbatim and no missing-tag write-list entry is produced:
the on-disk value wins over any configured fallback. -/
theorem on_disk_value_wins (raw : RawMetadata) (tag s : String) (e : JSValue)
    (hreq : e = .str tag ∨ ∃ v, e = .obj (.fcons tag v .fnil))
    (hraw : rawGet raw tag = .str s)
    (hws : whitespaceOnly s = false) :
    reconcile raw [e] = .ok ([(tag, .str s)], []) := by
  rw [reconcile_one]
  rcases hreq with h | ⟨v, h⟩ <;> subst h <;>
    simp [step, entryName, hraw, isEmptyValue_str s hws, truthy_str_of_not_ws s hws, assocSet]

/-- Witness for C1 at a concrete input: a populated `Title` tag beats a
configured fallback. -/
theorem on_disk_value_wins_witness :
    reconcile [("Title", .str "On file")] [.obj (.fcons "Title" (.str "fallback") .fnil)]
      = .ok ([("Title", .str "On file")], []) :=
  on_disk_value_wins [("Title", .str "On file")] "Title" "On file"
    (.obj (.fcons "Title" (.str "fallback") .fnil))
    (Or.inr ⟨.str "fallback", rfl⟩) (by rfl) (by rfl)

/-- C3: for every `{tag: {val: v, write: true}}` request where the
on-file value is missing per the emptiness test, the reconciled record
maps `tag` to `v`, the write-list contains exactly the one `(tag, v)`
pair, and replaying it through `logMissingTag` leaves the ledger with
exactly that one entry for the file — including when `v` is `null`,
which is recorded as an explicit `null` rather than as no entry. -/
theorem with_policy_missing_writes (raw : RawMetadata) (tag : String) (v : JSValue)
    (file : Path)
    (hempty : isEmptyValue (rawGet raw tag) = true) :
    reconcile raw
        [.obj (.fcons tag (.obj (.fcons "val" v (.fcons "write" (.bool true) .fnil))) .fnil)]
      = .ok ([(tag, v)], [(tag, v)])
    ∧ assocGet (applyWriteList [] file [(tag, v)]) (pathBasename file) = some [(tag, v)] := by
  constructor
  · rw [reconcile_one]
    simp [step, entryName, hempty, isObject, jsGet, fieldsGet, hasOwnVal, fieldsHas,
      entryFallbackVal, optionalVal, truthy, assocSet]
  · simp [applyWriteList, logMissingTag, assocGet, assocSet]

/-- Witness for C3 at a concrete input: the `Subject: {val: null,
write: true}` scenario of the spec, on a file where `Subject` is null
on disk. -/
theorem with_policy_missing_writes_witness :
    reconcile [("Subject", .null)]
        [.obj (.fcons "Subject" (.obj (.fcons "val" .null (.fcons "write" (.bool true) .fnil))) .fnil)]
      = .ok ([("Subject", .null)], [("Subject", .null)])
    ∧ assocGet (applyWriteList [] ["r", "a.jpg"] [("Subject", .null)]) (pathBasename ["r", "a.jpg"])
      = some [("Subject", .null)] :=
  with_policy_missing_writes [("Subject", .null)] "Subject" .null ["r", "a.jpg"] (by rfl)

/-- C4: reconciling any raw metadata against an empty tag specification
returns the raw metadata itself, unmodified and unfiltered, and makes
no missing-tag write-list entry (identity pass-through). -/
theorem empty_spec_identity (raw : RawMetadata) :
    reconcile raw [] = .ok (raw, []) := by
  rfl

/-- C8: whenever `gatherTags` succeeds, the output record contains the
`SourceFile` and `Directory` keys, set to the file's path and its
containing directory's path relative to the root directory, overwriting
any same-named tag the reconciliation produced (in particular any
same-named raw tag in the empty-spec pass-through case). -/
theorem source_file_and_directory_keys (metadata : RawMetadata) (file root : Path)
    (tagOptions : List JSValue) (record : Record)
    (hrun : gatherTags (.ok metadata) file root tagOptions = .ok record) :
    assocGet record "SourceFile" = some (.str (pathRelative root file))
    ∧ assocGet record "Directory" = some (.str (pathRelative root (pathDirname file))) := by
  cases hre : reconcile metadata tagOptions with
  | error u => simp [gatherTags, hre] at hrun
  | ok st =>
    simp only [gatherTags, hre, Except.ok.injEq] at hrun
    subst hrun
    constructor
    · rw [assocGet_assocSet_ne _ "Directory" "SourceFile" _ (by decide)]
      exact assocGet_assocSet_self _ _ _
    · exact assocGet_assocSet_self _ _ _

/-- Witness for C8 at a concrete input: empty spec pass-through of raw
metadata that already carries a `SourceFile` tag; the path-derived
values overwrite it. -/
theorem source_file_and_directory_keys_witness :
    assocGet [("SourceFile", JSValue.str "d/a.jpg"), ("Directory", JSValue.str "d")] "SourceFile"
      = some (.str (pathRelative ["r"] ["r", "d", "a.jpg"]))
    ∧ assocGet [("SourceFile", JSValue.str "d/a.jpg"), ("Directory", JSValue.str "d")] "Directory"
      = some (.str (pathRelative ["r"] (pathDirname ["r", "d", "a.jpg"]))) :=
  source_file_and_directory_keys [("SourceFile", .str "stale")] ["r", "d", "a.jpg"] ["r"] []
    [("SourceFile", .str "d/a.jpg"), ("Directory", .str "d")] (by rfl)

/-- C2 counterexample: the claim that non-string falsy on-file values
(0, false, the empty array) are never treated as missing, and are kept
in the output record, is false on the code.  `String([])` is the empty
string, so an empty array passes the whitespace regex and a configured
fallback replaces it; and an on-file `0`, though not missing, is
dropped from the record by the truthiness guard instead of kept. -/
theorem emptiness_predicate_refuted :
    isEmptyValue (.arr .nil) = true
    ∧ reconcile [("T", .arr .nil)] [.obj (.fcons "T" (.str "fb") .fnil)]
        = .ok ([("T", .str "fb")], [])
    ∧ reconcile [("T", .num 0)] [.str "T"] = .ok ([], []) :=
  ⟨rfl, rfl, rfl⟩

/-- C2 amended: a raw value is treated as missing iff it is undefined,
null, or its JS string coercion consists entirely of whitespace — so
the empty array IS treated as missing, while 0 and false are not;
however a non-missing falsy value (0, false) is not kept either: the
truthiness guard drops it from the output record, with no fallback
substituted and no write-list entry. -/
theorem emptiness_and_falsy_amended (t : String) :
    isEmptyValue (.num 0) = false ∧ isEmptyValue (.bool false) = false
    ∧ isEmptyValue (.arr .nil) = true
    ∧ reconcile [(t, .num 0)] [.str t] = .ok ([], [])
    ∧ reconcile [(t, .bool false)] [.str t] = .ok ([], [])
    ∧ ∀ v, isEmptyValue v = true ↔
        (v = .undefined ∨ v = .null ∨ whitespaceOnly (jsToString v) = true) := by
  have h0 : isEmptyValue (.num 0) = false := by rfl
  have hb : isEmptyValue (.bool false) = false := by rfl
  have t0 : truthy (.num 0) = false := by rfl
  have tb : truthy (.bool false) = false := by rfl
  refine ⟨h0, hb, rfl, ?_, ?_, ?_⟩
  · rw [reconcile_one]
    simp [step, entryName, rawGet, assocGet, h0, t0]
  · rw [reconcile_one]
    simp [step, entryName, rawGet, assocGet, hb, tb]
  · intro v
    cases v <;> simp [isEmptyValue, jsToString]

/-- C5: in a batch over three files in which the second file's metadata
read fails, the code does NOT return the two successful records alone:
`Promise.allSettled` result objects are all truthy, so
`filter(Boolean)` removes nothing, and mapping `.value` over the
rejected result leaves an `undefined` placeholder in the returned
sequence, which therefore still has three elements. -/
theorem batch_read_failure_keeps_placeholder :
    processDirectories
        [(["r", "a.jpg"], .ok []), (["r", "b.jpg"], .error ()), (["r", "c.jpg"], .ok [])]
        ["r"] []
      = .ok [some [("SourceFile", .str "a.jpg"), ("Directory", .str "")],
             none,
             some [("SourceFile", .str "c.jpg"), ("Directory", .str "")]] := by
  rfl

/-- C6 counterexample: a single-key mapping whose value is `null` has
no `val` property, yet requesting it for a missing tag does not output
`null` as the fallback payload — `entry[tag].hasOwnProperty('val')`
throws a TypeError on `null`, so reconciliation raises an error. -/
theorem null_fallback_payload_throws :
    reconcile [] [.obj (.fcons "Credit" .null .fnil)] = .error () := by
  rfl

/-- C6 amended: for a single-key mapping whose value has no `val`
property, if the tag is missing the entire value is output as the
fallback payload with write disabled and no error — provided the value
is not null/undefined (`hasOwnVal v = .ok false` excludes those); when
the value is `null`, the `hasOwnProperty` probe throws a TypeError
instead. -/
theorem fallback_payload_without_val (raw : RawMetadata) (name : String) (v : JSValue)
    (hempty : isEmptyValue (rawGet raw name) = true)
    (hnoval : hasOwnVal v = .ok false) :
    reconcile raw [.obj (.fcons name v .fnil)] = .ok ([(name, v)], [])
    ∧ reconcile raw [.obj (.fcons name .null .fnil)] = .error () := by
  constructor
  · rw [reconcile_one]
    simp [step, entryName, hempty, isObject, jsGet, fieldsGet, hnoval, assocSet]
  · rw [reconcile_one]
    simp [step, entryName, hempty, isObject, jsGet, fieldsGet, hasOwnVal]

/-- Witness for the amended C6 at a concrete input: a whole
contact-info group object passed through as the fallback payload of a
missing tag. -/
theorem fallback_payload_without_val_witness :
    reconcile []
        [.obj (.fcons "CreatorContactInfo" (.obj (.fcons "CiAdrCity" (.str "Paris") .fnil)) .fnil)]
      = .ok ([("CreatorContactInfo", .obj (.fcons "CiAdrCity" (.str "Paris") .fnil))], [])
    ∧ reconcile [] [.obj (.fcons "CreatorContactInfo" .null .fnil)] = .error () :=
  fallback_payload_without_val [] "CreatorContactInfo"
    (.obj (.fcons "CiAdrCity" (.str "Paris") .fnil)) (by rfl) (by rfl)

/-- C7 counterexample: a spec entry that is neither a string nor a
single-key mapping (the number 42) is not rejected anywhere: the
`tagOptions` validation accepts any array, reconciliation completes
without error, and `gatherTags` — which has already performed the
file's metadata read — returns a normal record. -/
theorem invalid_tag_spec_never_signaled :
    validateTagOptions (.arr (.cons (.num 42) .nil)) = .ok ()
    ∧ reconcile [] [.num 42] = .ok ([], [])
    ∧ gatherTags (.ok []) ["r", "a.jpg"] ["r"] [.num 42]
      = .ok [("SourceFile", .str "a.jpg"), ("Directory", .str "")] :=
  ⟨rfl, rfl, rfl⟩

/-- C7 amended: no `InvalidTagSpec` error exists; option validation
only rejects a `tagOptions` that is truthy and not an array, and during
reconciliation (which runs after the file's metadata has been read) a
numeric entry resolves to the coerced key `"undefined"` and is silently
skipped — no output key and no error — whenever the raw metadata lacks
that key. -/
theorem malformed_entry_silently_skipped (raw : RawMetadata) (n : Int)
    (h : rawGet raw "undefined" = .undefined) :
    validateTagOptions (.arr (.cons (.num n) .nil)) = .ok ()
    ∧ reconcile raw [.num n] = .ok ([], []) := by
  constructor
  · rfl
  · rw [reconcile_one]
    simp [step, entryName, h, isEmptyValue, isObject]

/-- Witness for the amended C7 at a concrete input. -/
theorem malformed_entry_silently_skipped_witness :
    validateTagOptions (.arr (.cons (.num 42) .nil)) = .ok ()
    ∧ reconcile [("Title", .str "x")] [.num 42] = .ok ([], []) :=
  malformed_entry_silently_skipped [("Title", .str "x")] 42 (by rfl)

/-- C9 counterexample: with raw metadata lacking `T` and the spec
`[{T: "fb"}, "T"]`, the record's slot for `T` holds the first entry's
fallback, while processing the last occurrence alone leaves no slot at
all — the last occurrence is not authoritative. -/
theorem duplicate_last_occurrence_refuted :
    reconcile [] [.obj (.fcons "T" (.str "fb") .fnil), .str "T"] = .ok ([("T", .str "fb")], [])
    ∧ reconcile [] [.str "T"] = .ok ([], [])
    ∧ assocGet [("T", JSValue.str "fb")] "T" ≠ assocGet ([] : Record) "T" := by
  refine ⟨rfl, rfl, ?_⟩
  simp [assocGet]

theorem exceptBindOk {ε α β : Type} (a : α) (f : α → Except ε β) :
    (Except.ok a >>= f) = f a := rfl

theorem exceptBindErr {ε α β : Type} (er : ε) (f : α → Except ε β) :
    ((Except.error er : Except ε α) >>= f) = .error er := rfl

theorem exceptPureEq {ε α : Type} (a : α) : (pure a : Except ε α) = .ok a := rfl

/-- C9 amended: for two spec entries with the same tag name, the
record's output slot for that tag equals the slot the last occurrence
produces on its own when that occurrence writes one, and otherwise
falls back to the slot the first occurrence produces — i.e. the last
occurrence that actually writes is authoritative; an occurrence that
writes nothing (e.g. a bare request for an empty tag) leaves the
earlier occurrence's slot intact. -/
theorem duplicate_entries_last_writer_wins (raw : RawMetadata) (e1 e2 : JSValue) (t : String)
    (r1 r2 r12 : Record) (w1 w2 w12 : WriteList)
    (h1 : entryName e1 = .ok t) (h2 : entryName e2 = .ok t)
    (hr1 : reconcile raw [e1] = .ok (r1, w1))
    (hr2 : reconcile raw [e2] = .ok (r2, w2))
    (hr12 : reconcile raw [e1, e2] = .ok (r12, w12)) :
    assocGet r12 t = (assocGet r2 t).orElse (fun _ => assocGet r1 t) := by
  rw [reconcile_one] at hr1 hr2
  rw [reconcile_ne_nil _ _ (by simp)] at hr12
  simp only [List.foldlM_cons, List.foldlM_nil] at hr12
  rcases step_shape raw e1 [] [] with ⟨ha, _⟩ | ⟨ha, _⟩ | ⟨t1, v1, wl1, hn1, ha, _⟩
  · rw [ha] at hr1
    simp at hr1
  · -- first entry writes nothing: r1 = []
    rw [ha] at hr1 hr12
    rw [exceptBindOk] at hr12
    simp only [Except.ok.injEq, Prod.mk.injEq] at hr1
    obtain ⟨hra, hrb⟩ := hr1
    subst hra
    subst hrb
    rcases step_shape raw e2 [] [] with ⟨hb, _⟩ | ⟨hb, _⟩ | ⟨t2, v2, wl2, hn2, hb, _⟩
    · rw [hb] at hr2
      simp at hr2
    · -- second entry writes nothing: record stays empty
      rw [hb] at hr2 hr12
      rw [exceptBindOk, exceptPureEq] at hr12
      simp only [Except.ok.injEq, Prod.mk.injEq] at hr2 hr12
      obtain ⟨hra2, _⟩ := hr2
      obtain ⟨hc, _⟩ := hr12
      subst hra2
      subst hc
      simp [assocGet, Option.orElse]
    · -- second entry writes v2 under t
      rw [h2] at hn2
      injection hn2 with hn2
      subst hn2
      rw [hb] at hr2 hr12
      rw [exceptBindOk, exceptPureEq] at hr12
      simp only [Except.ok.injEq, Prod.mk.injEq] at hr2 hr12
      obtain ⟨hra2, _⟩ := hr2
      obtain ⟨hc, _⟩ := hr12
      subst hra2
      subst hc
      simp [assocGet, Option.orElse]
  · -- first entry writes v1 under t
    rw [h1] at hn1
    injection hn1 with hn1
    subst hn1
    rw [ha] at hr1 hr12
    rw [exceptBindOk] at hr12
    simp only [Except.ok.injEq, Prod.mk.injEq] at hr1
    obtain ⟨hra, hrb⟩ := hr1
    subst hra
    subst hrb
    rcases step_shape raw e2 (assocSet [] t v1) ([] ++ wl1) with ⟨hb, hb0⟩ | ⟨hb, hb0⟩ |
      ⟨t2, v2, wl2, hn2, hb, hb0⟩
    · rw [hb0] at hr2
      simp at hr2
    · -- second entry writes nothing: slot keeps first entry's value
      rw [hb0] at hr2
      simp only [Except.ok.injEq, Prod.mk.injEq] at hr2
      obtain ⟨hra2, _⟩ := hr2
      subst hra2
      rw [hb] at hr12
      rw [exceptBindOk, exceptPureEq] at hr12
      simp only [Except.ok.injEq, Prod.mk.injEq] at hr12
      obtain ⟨hc, _⟩ := hr12
      subst hc
      simp [assocGet, Option.orElse, assocGet_assocSet_self]
    · -- second entry writes v2 under t: it overwrites the slot
      rw [h2] at hn2
      injection hn2 with hn2
      subst hn2
      rw [hb0] at hr2
      simp only [Except.ok.injEq, Prod.mk.injEq] at hr2
      obtain ⟨hra2, _⟩ := hr2
      subst hra2
      rw [hb] at hr12
      rw [exceptBindOk, exceptPureEq] at hr12
      simp only [Except.ok.injEq, Prod.mk.injEq] at hr12
      obtain ⟨hc, _⟩ := hr12
      subst hc
      rw [assocGet_assocSet_self]
      simp [assocGet, Option.orElse, assocGet_assocSet_self]

/-- Witness for the amended C9 at a concrete input: the fallback entry
followed by a bare request for the same missing tag. -/
theorem duplicate_entries_last_writer_wins_witness :
    assocGet [("T", JSValue.str "fb")] "T"
      = (assocGet ([] : Record) "T").orElse (fun _ => assocGet [("T", JSValue.str "fb")] "T") :=
  duplicate_entries_last_writer_wins [] (.obj (.fcons "T" (.str "fb") .fnil)) (.str "T") "T"
    [("T", .str "fb")] [] [("T", .str "fb")] [] [] []
    (by rfl) (by rfl) (by rfl) (by rfl) (by rfl)

/-- Every key the reconciliation fold adds to the record is the tag
name of some processed entry. -/
theorem foldlM_keys (metadata : RawMetadata) (opts : List JSValue) :
    ∀ st st' : Record × WriteList, opts.foldlM (step metadata) st = .ok st' →
      ∀ k, (assocGet st'.1 k).isSome = true →
        (assocGet st.1 k).isSome = true ∨ k ∈ specNames opts := by
  induction opts with
  | nil =>
    intro st st' h k hk
    simp only [List.foldlM_nil, exceptPureEq, Except.ok.injEq] at h
    subst h
    exact Or.inl hk
  | cons e rest ih =>
    intro st st' h k hk
    obtain ⟨r, w⟩ := st
    simp only [List.foldlM_cons] at h
    rcases step_shape metadata e r w with ⟨ha, _⟩ | ⟨ha, _⟩ | ⟨t, v, wl, hn, ha, _⟩
    · rw [ha, exceptBindErr] at h
      simp at h
    · rw [ha, exceptBindOk] at h
      rcases ih (r, w) st' h k hk with h1 | h1
      · exact Or.inl h1
      · refine Or.inr ?_
        simp only [specNames, List.filterMap_cons]
        cases hne : entryName e
        · exact h1
        · exact List.mem_cons_of_mem _ h1
    · rw [ha, exceptBindOk] at h
      rcases ih (assocSet r t v, w ++ wl) st' h k hk with h1 | h1
      · rcases isSome_assocGet_assocSet r t k v h1 with hkt | h2
        · subst hkt
          refine Or.inr ?_
          simp [specNames, List.filterMap_cons, hn]
        · exact Or.inl h2
      · refine Or.inr ?_
        simp only [specNames, List.filterMap_cons]
        cases hne : entryName e
        · exact h1
        · exact List.mem_cons_of_mem _ h1

/-- C10: for every non-empty tag specification every one of whose
entries is a bare tag name or a single-key mapping, and every raw
metadata map, a key of the successfully produced record is either a
tag name resolved from the specification or one of the two path-derived
keys `SourceFile` / `Directory` — no unrequested raw tag leaks into
the output. -/
theorem record_keys_subset (metadata : RawMetadata) (file root : Path)
    (opts : List JSValue) (record : Record) (k : String)
    (hopts : opts ≠ [])
    (hwf : ∀ e ∈ opts, wellFormedEntry e)
    (hrun : gatherTags (.ok metadata) file root opts = .ok record)
    (hk : (assocGet record k).isSome = true) :
    k ∈ specNames opts ∨ k = "SourceFile" ∨ k = "Directory" := by
  cases hre : reconcile metadata opts with
  | error u => simp [gatherTags, hre] at hrun
  | ok st =>
    simp only [gatherTags, hre, Except.ok.injEq] at hrun
    subst hrun
    rcases isSome_assocGet_assocSet _ _ _ _ hk with hD | hk2
    · exact Or.inr (Or.inr hD)
    rcases isSome_assocGet_assocSet _ _ _ _ hk2 with hS | hk3
    · exact Or.inr (Or.inl hS)
    · refine Or.inl ?_
      rw [reconcile_ne_nil _ _ hopts] at hre
      rcases foldlM_keys metadata opts ([], []) st hre k hk3 with habs | hmem
      · simp [assocGet] at habs
      · exact hmem

/-- Witness for C10 at a concrete input: a spec requesting only `T`
against raw metadata also carrying an unrequested tag `X`. -/
theorem record_keys_subset_witness :
    "T" ∈ specNames [JSValue.str "T"] ∨ "T" = "SourceFile" ∨ "T" = "Directory" :=
  record_keys_subset [("X", .str "v"), ("T", .str "w")] ["r", "a.jpg"] ["r"]
    [.str "T"] [("T", .str "w"), ("SourceFile", .str "a.jpg"), ("Directory", .str "")] "T"
    (by simp)
    (by
      intro e he
      simp only [List.mem_singleton] at he
      subst he
      exact Or.inl ⟨"T", rfl⟩)
    (by rfl) (by rfl)

end ExifExtract
